import Mathlib

/-!
# Verification of `src/turing.rs`

A shallow embedding of the 2D toroidal Turing-machine simulator in
`src/src/turing.rs` (pre-1.0 Rust).  Machine integers are modelled as `Nat`
with an explicit `% 256` wherever the source performs `u8` arithmetic
(`u8` multiplication and addition wrap silently in that Rust era):

* `random_table` builds a vector of `(states*symbols) as uint` entries,
  where `states*symbols` is a `u8` product, hence `(states * symbols) % 256`;
* `step` indexes the table at `(self.states*curr_symbol + self.state) as uint`,
  a `u8` computation, hence `(states * curr + state) % 256`.

Fallible operations (bounds-checked `Vec::get` / `get_mut`, `%` by zero,
`fail!`) are modelled with `Option`: `none` corresponds to a task failure
that kills the process.  The process-level random source is modelled as a
stream `Nat → Nat × Nat × Nat` of raw draws; `rng.gen_range(0, n)` becomes
`raw % n`, which captures the library's contract that the sample lies in
`[0, n)`.
-/

/-- The movement directions of `enum Direction` (NORTH, EAST, SOUTH, WEST). -/
inductive Direction where
  | NORTH
  | EAST
  | SOUTH
  | WEST
deriving DecidableEq, Repr

open Direction

/-- `rng.gen::<Direction>()` draws one of the four variants; we model the raw
draw reduced mod 4. -/
def genDirection : Nat → Direction
  | 0 => NORTH
  | 1 => EAST
  | 2 => SOUTH
  | _ => WEST

/-- A color `[R, G, B]` (`type Color = [u8, .. 3]`), as an (r, g, b) triple. -/
abbrev Color := Nat × Nat × Nat

/-- The `TuringMachine` struct.  `width`, `height`, `position` are `uint`;
`states`, `symbols`, `state`, the table entries and the tape cells are `u8`. -/
structure TuringMachine where
  width : Nat
  height : Nat
  states : Nat
  symbols : Nat
  position : Nat
  state : Nat
  table : List (Nat × Nat × Direction)
  tape : List Nat
  image : List Nat
deriving DecidableEq, Repr

/-- `TuringMachine::random_table(states, symbols)`: a vector of
`(states*symbols) as uint` (a wrapping `u8` product) random entries
`(gen_range(0,states), gen_range(0,symbols), gen::<Direction>())`,
drawn from the stream `rng`. -/
def random_table (states symbols : Nat) (rng : Nat → Nat × Nat × Nat) :
    List (Nat × Nat × Direction) :=
  (List.range ((states * symbols) % 256)).map fun j =>
    ((rng j).1 % states, (rng j).2.1 % symbols, genDirection ((rng j).2.2 % 4))

/-- `TuringMachine::new(width, height, states, symbols)`. -/
def TuringMachine.new (width height states symbols : Nat)
    (rng : Nat → Nat × Nat × Nat) : TuringMachine :=
  { width := width
    height := height
    states := states
    symbols := symbols
    position := 0
    state := 0
    table := random_table states symbols rng
    tape := List.replicate (width * height) 0
    image := List.replicate (width * height * 3) 0 }

/-- The `match move_direction` block of `TuringMachine::step` (lines 95-110):
given the decomposed coordinates `(x, y)` of the head, the new `(x, y)`
after moving in `dir` with toroidal wraparound on each axis. -/
def moveXY (dir : Direction) (x y width height : Nat) : Nat × Nat :=
  match dir with
  | NORTH => (x, if y = 0 then height - 1 else y - 1)
  | EAST => (if x + 1 ≥ width then 0 else x + 1, y)
  | SOUTH => (x, if y + 1 ≥ height then 0 else y + 1)
  | WEST => (if x = 0 then width - 1 else x - 1, y)

/-- `TuringMachine::step`.  Reads the tape at `position` (bounds-checked),
looks up the table at the wrapping `u8` index `states*curr_symbol + state`
(bounds-checked), writes `write_symbol` at `position`, updates the state,
moves the head (`position % width` / `position / width` fail when
`width = 0`), and returns whether the written symbol differs from the one
read. -/
def TuringMachine.step (m : TuringMachine) : Option (TuringMachine × Bool) :=
  match m.tape.get? m.position with
  | none => none
  | some curr_symbol =>
    match m.table.get? ((m.states * curr_symbol + m.state) % 256) with
    | none => none
    | some (next_state, write_symbol, move_direction) =>
      if m.width = 0 then none
      else
        let x := m.position % m.width
        let y := m.position / m.width
        let xy := moveXY move_direction x y m.width m.height
        some
          ({ m with
              tape := m.tape.set m.position write_symbol
              state := next_state
              position := xy.2 * m.width + xy.1 },
            write_symbol != curr_symbol)

/-- `n` consecutive calls to `step`, keeping only the machine
(`none` as soon as any step fails). -/
def stepN : Nat → TuringMachine → Option TuringMachine
  | 0, m => some m
  | n + 1, m =>
    match m.step with
    | none => none
    | some (m', _) => stepN n m'

/-- The loop body of `TuringMachine::write_image` (lines 143-150): walk the
tape; for each cell look up its palette color (bounds-checked) and write its
bytes at offsets `i+2` (R), `i+1` (G), `i+0` (B) of the image buffer
(each `get_mut` bounds-checked), advancing `i` by 3. -/
def writeCells (palette : List Color) : List Nat → List Nat → Nat → Option (List Nat)
  | [], image, _ => some image
  | val :: rest, image, i =>
    match palette.get? val with
    | none => none
    | some color =>
      if i + 2 < image.length then
        writeCells palette rest
          (((image.set (i + 2) color.1).set (i + 1) color.2.1).set i color.2.2)
          (i + 3)
      else none

/-- `TuringMachine::write_image` (the retained third variant): overwrite the
persistent `image` buffer in place, returning its new contents (the bytes
flushed to the sink). -/
def TuringMachine.write_image (m : TuringMachine) (palette : List Color) :
    Option (List Nat) :=
  writeCells palette m.tape m.image 0

/-- The driver state of `main`'s loop: the machine, the step counter `i`
(a `u32`) and the accumulated `change` flag. -/
structure DriverState where
  machine : TuringMachine
  i : Nat
  change : Bool
deriving DecidableEq, Repr

/-- One iteration of `main`'s `loop` (lines 220-242): step the machine and
accumulate `change`; every `stops` steps emit a frame and, if no step since
the last reset changed the tape, regenerate the table and zero the tape and
the counter; independently reset when the counter reaches `count`.
`rngA`/`rngB` are the random draws consumed by the two `random_table` call
sites; `i % stops` fails when `stops = 0`. -/
def loopIter (stops count : Nat) (palette : List Color)
    (rngA rngB : Nat → Nat × Nat × Nat) (d : DriverState) : Option DriverState :=
  match d.machine.step with
  | none => none
  | some (m1, c) =>
    let change1 := c || d.change
    let i1 := d.i + 1
    if stops = 0 then none
    else
      let afterPic : Option DriverState :=
        if i1 % stops = 0 then
          match m1.write_image palette with
          | none => none
          | some img =>
            if change1 = false then
              some
                { machine :=
                    { m1 with
                        image := img
                        table := random_table m1.states m1.symbols rngA
                        tape := List.replicate (m1.width * m1.height) 0 }
                  i := 0
                  change := change1 }
            else some { machine := { m1 with image := img }, i := i1, change := true }
        else some { machine := m1, i := i1, change := change1 }
      match afterPic with
      | none => none
      | some d2 =>
        if d2.i ≥ count then
          some
            { machine :=
                { d2.machine with
                    table := random_table d2.machine.states d2.machine.symbols rngB
                    tape := List.replicate (d2.machine.width * d2.machine.height) 0 }
              i := 0
              change := d2.change }
        else some d2

/-- A constant stream for concrete evaluations of the random source. -/
def rngZero : Nat → Nat × Nat × Nat := fun _ => (0, 0, 0)

/-! ## Helper lemmas -/

/-- `Direction` is exactly the four cardinal variants. -/
theorem direction_cases (d : Direction) :
    d = NORTH ∨ d = EAST ∨ d = SOUTH ∨ d = WEST := by
  cases d <;> simp

/-! ## C10 -/

/-- C10: a machine returned by `TuringMachine::new(width, height, states,
symbols)` starts with `position = 0`, `state = 0`, a tape of exactly
`width*height` cells all equal to `0`, and a persistent image buffer of
exactly `width*height*3` bytes. -/
theorem c10_new_initial (w h s k : Nat) (rng : Nat → Nat × Nat × Nat) :
    (TuringMachine.new w h s k rng).position = 0 ∧
    (TuringMachine.new w h s k rng).state = 0 ∧
    (TuringMachine.new w h s k rng).tape = List.replicate (w * h) 0 ∧
    (TuringMachine.new w h s k rng).tape.length = w * h ∧
    (∀ v ∈ (TuringMachine.new w h s k rng).tape, v = 0) ∧
    (TuringMachine.new w h s k rng).image.length = w * h * 3 := by
  refine ⟨rfl, rfl, rfl, by simp [TuringMachine.new], ?_, by simp [TuringMachine.new]⟩
  intro v hv
  exact List.eq_of_mem_replicate hv

/-! ## C6 -/

/-- The concrete machine of the spec's scenario: `width=4, height=1,
states=1, symbols=2`, both table entries `(next_state=0, write=1, EAST)`,
tape `[0,0,0,0]`, head at 0. -/
def c6_m : TuringMachine :=
  { width := 4, height := 1, states := 1, symbols := 2, position := 0, state := 0,
    table := [(0, 1, EAST), (0, 1, EAST)],
    tape := [0, 0, 0, 0], image := List.replicate 12 0 }

/-- C6: on the scenario machine, the first step writes `tape[0] = 1`, moves
to position 1 and returns `changed = true`; the fourth step starts at
position 3 and wraps the head back to position 0; after 4 steps the tape is
`[1,1,1,1]` with the head at 0. -/
theorem c6_concrete_scenario :
    (c6_m.step.map fun p => (p.1.tape, p.1.position, p.2)) = some ([1, 0, 0, 0], 1, true) ∧
    ((stepN 3 c6_m).map fun m => m.position) = some 3 ∧
    (((stepN 3 c6_m).bind TuringMachine.step).map fun p => p.1.position) = some 0 ∧
    ((stepN 4 c6_m).map fun m => (m.tape, m.position)) = some ([1, 1, 1, 1], 0) := by
  decide

/-! ## C7 -/

/-- C7: the boolean returned by `step` is `true` iff the write symbol of the
looked-up transition differs from the symbol read at the current position. -/
theorem c7_changed_iff (m m' : TuringMachine) (b : Bool) (curr ns ws : Nat)
    (dir : Direction)
    (hread : m.tape.get? m.position = some curr)
    (hentry : m.table.get? ((m.states * curr + m.state) % 256) = some (ns, ws, dir))
    (hstep : m.step = some (m', b)) :
    b = true ↔ ws ≠ curr := by
  simp only [TuringMachine.step, hread, hentry] at hstep
  split at hstep
  · exact absurd hstep (by simp)
  · simp only [Option.some.injEq, Prod.mk.injEq] at hstep
    obtain ⟨-, hb⟩ := hstep
    subst hb
    simp [bne_iff_ne]

/-- Concrete machine for the C7 witness: the always-flip table. -/
def c7_m : TuringMachine :=
  { width := 2, height := 2, states := 1, symbols := 2, position := 0, state := 0,
    table := [(0, 1, SOUTH), (0, 0, SOUTH)],
    tape := [0, 0, 0, 0], image := List.replicate 12 0 }

/-- Result of one step on `c7_m`. -/
def c7_m1 : TuringMachine :=
  { c7_m with tape := [1, 0, 0, 0], state := 0, position := 2 }

/-- Witness for C7 at a concrete input. -/
theorem c7_changed_iff_witness : true = true ↔ (1 : Nat) ≠ 0 :=
  c7_changed_iff c7_m c7_m1 true 0 0 1 SOUTH (by decide) (by decide) (by decide)

/-! ## C9 -/

/-- C9: a successful `step` leaves `width`, `height`, `states`, `symbols`,
the table and the tape length unchanged, writes the looked-up transition's
write symbol at the pre-step head position, and leaves every other tape
cell unchanged. -/
theorem c9_step_frame_effect (m m' : TuringMachine) (b : Bool) (curr ns ws : Nat)
    (dir : Direction)
    (hread : m.tape.get? m.position = some curr)
    (hentry : m.table.get? ((m.states * curr + m.state) % 256) = some (ns, ws, dir))
    (hstep : m.step = some (m', b)) :
    m'.width = m.width ∧ m'.height = m.height ∧ m'.states = m.states ∧
    m'.symbols = m.symbols ∧ m'.table = m.table ∧
    m'.tape.length = m.tape.length ∧
    m'.tape.get? m.position = some ws ∧
    (∀ j, j ≠ m.position → m'.tape.get? j = m.tape.get? j) := by
  simp only [TuringMachine.step, hread, hentry] at hstep
  split at hstep
  · exact absurd hstep (by simp)
  · simp only [Option.some.injEq, Prod.mk.injEq] at hstep
    obtain ⟨hm, -⟩ := hstep
    subst hm
    refine ⟨rfl, rfl, rfl, rfl, rfl, by simp, ?_, ?_⟩
    · have hlt : m.position < m.tape.length := (List.get?_eq_some.mp hread).1
      exact List.get?_set_eq_of_lt ws hlt
    · intro j hj
      exact List.get?_set_ne ws _ hj.symm

/-- Concrete machine for the C9 witness. -/
def c9_m : TuringMachine :=
  { width := 3, height := 1, states := 2, symbols := 2, position := 1, state := 1,
    table := [(0, 0, NORTH), (1, 1, WEST), (0, 1, EAST), (1, 0, SOUTH)],
    tape := [1, 0, 1], image := List.replicate 9 0 }

/-- Result of one step on `c9_m`: index `(2*0+1) % 256 = 1`, entry
`(1, 1, WEST)`: write 1 at position 1, move west to position 0. -/
def c9_m1 : TuringMachine :=
  { c9_m with tape := [1, 1, 1], state := 1, position := 0 }

/-- Witness for C9 at a concrete input. -/
theorem c9_step_frame_effect_witness :
    c9_m1.width = c9_m.width ∧ c9_m1.height = c9_m.height ∧
    c9_m1.states = c9_m.states ∧ c9_m1.symbols = c9_m.symbols ∧
    c9_m1.table = c9_m.table ∧
    c9_m1.tape.length = c9_m.tape.length ∧
    c9_m1.tape.get? c9_m.position = some 1 ∧
    (∀ j, j ≠ c9_m.position → c9_m1.tape.get? j = c9_m.tape.get? j) :=
  c9_step_frame_effect c9_m c9_m1 true 0 1 1 WEST (by decide) (by decide) (by decide)

/-! ## C2 -/

/-- C2 (amended): whenever the read symbol is below `symbols`, the state is
below `states` and `states*symbols < 256` (so the `u8` index arithmetic
cannot wrap), the transition executed by `step` is the table entry at
flattened index `curr_symbol * states + state` — stride `states`,
`curr_symbol` as the outer key. -/
theorem c2_index_formula (m : TuringMachine) (curr ns ws : Nat) (dir : Direction)
    (hread : m.tape.get? m.position = some curr)
    (hcurr : curr < m.symbols)
    (hstate : m.state < m.states)
    (hnof : m.states * m.symbols < 256)
    (hentry : m.table.get? (curr * m.states + m.state) = some (ns, ws, dir))
    (hw : m.width ≠ 0) :
    m.step =
      some
        ({ m with
            tape := m.tape.set m.position ws
            state := ns
            position :=
              (moveXY dir (m.position % m.width) (m.position / m.width)
                  m.width m.height).2 * m.width +
                (moveXY dir (m.position % m.width) (m.position / m.width)
                  m.width m.height).1 },
          ws != curr) := by
  have hidx : m.states * curr + m.state < 256 := by
    have h1 : m.states * curr + m.state < m.states * (curr + 1) := by
      rw [Nat.mul_succ]; omega
    have h2 : m.states * (curr + 1) ≤ m.states * m.symbols :=
      Nat.mul_le_mul_left m.states hcurr
    omega
  have hmod : (m.states * curr + m.state) % 256 = curr * m.states + m.state := by
    rw [Nat.mod_eq_of_lt hidx, Nat.mul_comm]
  simp only [TuringMachine.step, hread, hmod, hentry, if_neg hw]

/-- Concrete machine refuting C2 as stated: `states = 86`, `symbols = 3`,
read symbol 2, state 85, so the claimed index `2*86+85 = 257` wraps to 1
in `u8` arithmetic. -/
def c2_m : TuringMachine :=
  { width := 1, height := 1, states := 86, symbols := 3, position := 0, state := 85,
    table := [(1, 0, NORTH), (7, 1, EAST)], tape := [2], image := [0, 0, 0] }

/-- C2 counterexample: on `c2_m` the read symbol is 2 and the state 85, the
table has no entry at the claimed index `2*86+85 = 257`, yet `step`
succeeds, executing the entry at the wrapped index `257 % 256 = 1`
(its next state 7 becomes the machine state). -/
theorem c2_counterexample :
    c2_m.tape.get? c2_m.position = some 2 ∧
    c2_m.state = 85 ∧ c2_m.states = 86 ∧
    c2_m.table.get? (2 * 86 + 85) = none ∧
    (c2_m.step.map fun p => p.1.state) = some 7 := by
  decide

/-- Concrete machine for the C2 witness (no `u8` overflow). -/
def c2_w : TuringMachine :=
  { width := 4, height := 1, states := 1, symbols := 2, position := 0, state := 0,
    table := [(0, 1, EAST), (0, 1, EAST)],
    tape := [0, 0, 0, 0], image := List.replicate 12 0 }

/-- Witness for the amended C2 at a concrete input. -/
theorem c2_index_formula_witness :
    c2_w.step =
      some
        ({ c2_w with
            tape := c2_w.tape.set c2_w.position 1
            state := 0
            position :=
              (moveXY EAST (c2_w.position % c2_w.width) (c2_w.position / c2_w.width)
                  c2_w.width c2_w.height).2 * c2_w.width +
                (moveXY EAST (c2_w.position % c2_w.width) (c2_w.position / c2_w.width)
                  c2_w.width c2_w.height).1 },
          (1 : Nat) != 0) :=
  c2_index_formula c2_w 0 0 1 EAST (by decide) (by decide) (by decide) (by decide)
    (by decide) (by decide)

/-! ## C3 -/

/-- C3 (amended): for `states, symbols ≥ 1` and any random source, the
constructed table has exactly `(states * symbols) % 256` entries (the `u8`
product wraps; this equals `states*symbols` iff `states*symbols < 256`),
and every entry has `next_state < states`, `write_symbol < symbols` and one
of the four directions. -/
theorem c3_table_shape (states symbols : Nat) (rng : Nat → Nat × Nat × Nat)
    (hs : 1 ≤ states) (hk : 1 ≤ symbols) :
    (random_table states symbols rng).length = states * symbols % 256 ∧
    ∀ e ∈ random_table states symbols rng,
      e.1 < states ∧ e.2.1 < symbols ∧
      (e.2.2 = NORTH ∨ e.2.2 = EAST ∨ e.2.2 = SOUTH ∨ e.2.2 = WEST) := by
  constructor
  · simp [random_table]
  · intro e he
    simp only [random_table, List.mem_map, List.mem_range] at he
    obtain ⟨j, -, hj⟩ := he
    subst hj
    exact ⟨Nat.mod_lt _ hs, Nat.mod_lt _ hk, direction_cases _⟩

/-- C3 counterexample: at `states = 128`, `symbols = 2` the `u8` product
`128*2` wraps to 0, so the table is empty instead of having 256 entries. -/
theorem c3_counterexample :
    (random_table 128 2 rngZero).length = 0 ∧ (128 * 2 : Nat) = 256 := by
  decide

/-- Witness for the amended C3 at a concrete input. -/
theorem c3_table_shape_witness :
    (random_table 2 3 rngZero).length = 2 * 3 % 256 ∧
    ∀ e ∈ random_table 2 3 rngZero,
      e.1 < 2 ∧ e.2.1 < 3 ∧
      (e.2.2 = NORTH ∨ e.2.2 = EAST ∨ e.2.2 = SOUTH ∨ e.2.2 = WEST) :=
  c3_table_shape 2 3 rngZero (by decide) (by decide)

/-! ## C5 -/

/-- Movement keeps each coordinate inside the grid. -/
theorem moveXY_lt (dir : Direction) (x y w h : Nat) (hx : x < w) (hy : y < h) :
    (moveXY dir x y w h).1 < w ∧ (moveXY dir x y w h).2 < h := by
  cases dir <;> constructor <;> simp only [moveXY] <;> (try split) <;> omega

/-- Recomposing in-range coordinates gives an in-range linear position. -/
theorem pos_recompose_lt (x y w h : Nat) (hx : x < w) (hy : y < h) :
    y * w + x < w * h := by
  have h1 : (y + 1) * w ≤ h * w := Nat.mul_le_mul_right w hy
  calc y * w + x < y * w + w := by omega
    _ = (y + 1) * w := by ring
    _ ≤ h * w := h1
    _ = w * h := Nat.mul_comm h w

/-- A successful `step` preserves the grid dimensions and keeps the head
position inside `[0, width*height)`. -/
theorem step_dims_pos (m m' : TuringMachine) (b : Bool)
    (hstep : m.step = some (m', b)) (hw : 1 ≤ m.width) (hh : 1 ≤ m.height)
    (hpos : m.position < m.width * m.height) :
    m'.width = m.width ∧ m'.height = m.height ∧
    m'.position < m.width * m.height := by
  unfold TuringMachine.step at hstep
  split at hstep
  · exact absurd hstep (by simp)
  · split at hstep
    · exact absurd hstep (by simp)
    · split at hstep
      · exact absurd hstep (by simp)
      · simp only [Option.some.injEq, Prod.mk.injEq] at hstep
        obtain ⟨hm, -⟩ := hstep
        subst hm
        refine ⟨rfl, rfl, ?_⟩
        have hx : m.position % m.width < m.width := Nat.mod_lt _ hw
        have hy : m.position / m.width < m.height :=
          (Nat.div_lt_iff_lt_mul hw).mpr (by rw [Nat.mul_comm]; exact hpos)
        obtain ⟨h1, h2⟩ := moveXY_lt _ _ _ _ _ hx hy
        exact pos_recompose_lt _ _ _ _ h1 h2

/-- Iterated successful steps preserve the dimensions and the position
bound. -/
theorem stepN_pos (n : Nat) : ∀ (m m' : TuringMachine),
    1 ≤ m.width → 1 ≤ m.height → m.position < m.width * m.height →
    stepN n m = some m' →
    m'.width = m.width ∧ m'.height = m.height ∧
    m'.position < m.width * m.height := by
  induction n with
  | zero =>
    intro m m' _ _ hp hrun
    simp only [stepN, Option.some.injEq] at hrun
    subst hrun
    exact ⟨rfl, rfl, hp⟩
  | succ n ih =>
    intro m m' hw hh hp hrun
    rw [stepN] at hrun
    split at hrun
    · exact absurd hrun (by simp)
    · rename_i m1 b hstep
      obtain ⟨hwEq, hhEq, hposEq⟩ := step_dims_pos m m1 b hstep hw hh hp
      have := ih m1 m' (by omega) (by omega) (by rw [hwEq, hhEq]; exact hposEq) hrun
      rw [hwEq, hhEq] at this
      exact this

/-- C5: for machines with `width, height ≥ 1` and an in-range head, the head
position stays in `[0, width*height)` after any number of successful steps,
and each axis wraps independently: NORTH from `y = 0` gives `y = height-1`,
SOUTH from `y = height-1` gives `y = 0`, WEST from `x = 0` gives
`x = width-1`, EAST from `x = width-1` gives `x = 0`. -/
theorem c5_position_toroidal :
    (∀ (n : Nat) (m m' : TuringMachine),
        1 ≤ m.width → 1 ≤ m.height → m.position < m.width * m.height →
        stepN n m = some m' →
        m'.width = m.width ∧ m'.height = m.height ∧
        m'.position < m.width * m.height) ∧
    (∀ x w h, 1 ≤ h → (moveXY NORTH x 0 w h).2 = h - 1) ∧
    (∀ x w h, 1 ≤ h → (moveXY SOUTH x (h - 1) w h).2 = 0) ∧
    (∀ y w h, 1 ≤ w → (moveXY WEST 0 y w h).1 = w - 1) ∧
    (∀ y w h, 1 ≤ w → (moveXY EAST (w - 1) y w h).1 = 0) := by
  refine ⟨stepN_pos, ?_, ?_, ?_, ?_⟩
  · intro x w h _
    simp [moveXY]
  · intro x w h _
    simp only [moveXY]
    rw [if_pos (by omega)]
  · intro y w h _
    simp [moveXY]
  · intro y w h _
    simp only [moveXY]
    rw [if_pos (by omega)]

/-- Concrete machine for the C5 witness. -/
def c5_m : TuringMachine :=
  { width := 4, height := 1, states := 1, symbols := 2, position := 0, state := 0,
    table := [(0, 1, EAST), (0, 1, EAST)],
    tape := [0, 0, 0, 0], image := List.replicate 12 0 }

/-- Machine reached from `c5_m` after 5 steps. -/
def c5_m5 : TuringMachine :=
  { c5_m with tape := [1, 1, 1, 1], position := 1 }

/-- Witness for C5 at concrete inputs. -/
theorem c5_position_toroidal_witness :
    (c5_m5.width = c5_m.width ∧ c5_m5.height = c5_m.height ∧
      c5_m5.position < c5_m.width * c5_m.height) ∧
    (moveXY NORTH 2 0 3 7).2 = 7 - 1 ∧
    (moveXY SOUTH 2 (7 - 1) 3 7).2 = 0 ∧
    (moveXY WEST 0 5 3 7).1 = 3 - 1 ∧
    (moveXY EAST (3 - 1) 5 3 7).1 = 0 :=
  ⟨c5_position_toroidal.1 5 c5_m c5_m5 (by decide) (by decide) (by decide) (by decide),
    c5_position_toroidal.2.1 2 3 7 (by decide),
    c5_position_toroidal.2.2.1 2 3 7 (by decide),
    c5_position_toroidal.2.2.2.1 5 3 7 (by decide),
    c5_position_toroidal.2.2.2.2 5 3 7 (by decide)⟩

/-! ## C4 -/

/-- The invariants a machine built by `new` satisfies and `step` maintains:
in-range state, in-range tape cells, in-range head, tape sized to the grid,
table sized `states*symbols` with no `u8` overflow, and in-range entries. -/
def MachineInv (m : TuringMachine) : Prop :=
  m.state < m.states ∧
  (∀ v ∈ m.tape, v < m.symbols) ∧
  m.position < m.width * m.height ∧
  m.tape.length = m.width * m.height ∧
  m.table.length = m.states * m.symbols ∧
  m.states * m.symbols < 256 ∧
  ∀ e ∈ m.table, e.1 < m.states ∧ e.2.1 < m.symbols

/-- Under `MachineInv`, `step` succeeds (in particular the table lookup is
in bounds) and the invariant is maintained. -/
theorem step_preserves_inv (m : TuringMachine) (hInv : MachineInv m) :
    ∃ m' b, m.step = some (m', b) ∧ MachineInv m' := by
  obtain ⟨hstate, htape, hpos, hlen, htlen, hnof, hentries⟩ := hInv
  have hwh : 0 < m.width * m.height := lt_of_le_of_lt (Nat.zero_le _) hpos
  have hw : 0 < m.width := by
    rcases Nat.eq_zero_or_pos m.width with h0 | h1
    · rw [h0, Nat.zero_mul] at hwh; exact absurd hwh (by omega)
    · exact h1
  have hh : 0 < m.height := by
    rcases Nat.eq_zero_or_pos m.height with h0 | h1
    · rw [h0, Nat.mul_zero] at hwh; exact absurd hwh (by omega)
    · exact h1
  have hposlen : m.position < m.tape.length := by rw [hlen]; exact hpos
  have hread : m.tape.get? m.position = some (m.tape.get ⟨_, hposlen⟩) :=
    List.get?_eq_get hposlen
  set curr := m.tape.get ⟨_, hposlen⟩ with hcurrdef
  have hcurr : curr < m.symbols := htape _ (List.get?_mem hread)
  have hidxlt : m.states * curr + m.state < m.states * m.symbols := by
    have h1 : m.states * curr + m.state < m.states * (curr + 1) := by
      rw [Nat.mul_succ]; omega
    have h2 : m.states * (curr + 1) ≤ m.states * m.symbols :=
      Nat.mul_le_mul_left m.states hcurr
    omega
  have hmod : (m.states * curr + m.state) % 256 = m.states * curr + m.state :=
    Nat.mod_eq_of_lt (lt_of_lt_of_le hidxlt (le_of_lt hnof))
  have hidx : m.states * curr + m.state < m.table.length := by
    rw [htlen]; exact hidxlt
  have hentry : m.table.get? (m.states * curr + m.state) =
      some (m.table.get ⟨_, hidx⟩) := List.get?_eq_get hidx
  obtain ⟨hns, hws⟩ := hentries _ (List.get?_mem hentry)
  set e := m.table.get ⟨_, hidx⟩ with hedef
  refine ⟨{ m with
      tape := m.tape.set m.position e.2.1
      state := e.1
      position :=
        (moveXY e.2.2 (m.position % m.width) (m.position / m.width)
            m.width m.height).2 * m.width +
          (moveXY e.2.2 (m.position % m.width) (m.position / m.width)
            m.width m.height).1 },
    e.2.1 != curr, ?_, ?_⟩
  · simp only [TuringMachine.step, hread, hmod, hentry, if_neg (by omega : ¬m.width = 0)]
  · have hx : m.position % m.width < m.width := Nat.mod_lt _ hw
    have hy : m.position / m.width < m.height :=
      (Nat.div_lt_iff_lt_mul hw).mpr (by rw [Nat.mul_comm]; exact hpos)
    obtain ⟨hx', hy'⟩ := moveXY_lt e.2.2 _ _ _ _ hx hy
    refine ⟨hns, ?_, pos_recompose_lt _ _ _ _ hx' hy', by simpa using hlen, htlen,
      hnof, hentries⟩
    intro v hv
    rcases List.mem_or_eq_of_mem_set hv with h | h
    · exact htape _ h
    · rw [h]; exact hws

/-- C4 (amended): a machine satisfying `MachineInv` — as every machine built
by `new` with `states*symbols < 256` does — never fails: every one of `n`
consecutive steps reads the tape and indexes the table in bounds, and the
invariant persists. -/
theorem c4_lookup_never_fails (m : TuringMachine) (hInv : MachineInv m) (n : Nat) :
    ∃ m', stepN n m = some m' ∧ MachineInv m' := by
  induction n generalizing m with
  | zero => exact ⟨m, rfl, hInv⟩
  | succ n ih =>
    obtain ⟨m1, b, hstep, hInv1⟩ := step_preserves_inv m hInv
    obtain ⟨m', hrun, hInv'⟩ := ih m1 hInv1
    refine ⟨m', ?_, hInv'⟩
    rw [stepN, hstep]
    exact hrun

/-- C4 counterexample: `new 1 1 128 2` satisfies the claim's hypotheses
(state `0 < 128`, all tape cells `< 2`), but the `u8` product `128*2` wraps
to 0, the table is empty, and the very first table lookup fails. -/
theorem c4_counterexample :
    (TuringMachine.new 1 1 128 2 rngZero).state < 128 ∧
    (∀ v ∈ (TuringMachine.new 1 1 128 2 rngZero).tape, v < 2) ∧
    (TuringMachine.new 1 1 128 2 rngZero).table.length = 0 ∧
    (TuringMachine.new 1 1 128 2 rngZero).step = none := by
  decide

/-- Concrete machine for the C4 witness. -/
def c4_m : TuringMachine :=
  { width := 4, height := 1, states := 1, symbols := 2, position := 0, state := 0,
    table := [(0, 1, EAST), (0, 1, EAST)],
    tape := [0, 0, 0, 0], image := List.replicate 12 0 }

/-- Witness for the amended C4 at a concrete input. -/
theorem c4_lookup_never_fails_witness :
    ∃ m', stepN 3 c4_m = some m' ∧ MachineInv m' :=
  c4_lookup_never_fails c4_m (by unfold MachineInv; decide) 3

/-! ## C8 -/

/-- Specification of the `write_image` loop: when each tape value has a
palette color and the buffer is long enough, the walk succeeds, keeps the
buffer length, leaves bytes below the starting offset alone, and writes
each cell's color at its offset in B, G, R order. -/
theorem writeCells_spec (palette : List Color) :
    ∀ (tape image : List Nat) (i : Nat),
      (∀ v ∈ tape, v < palette.length) →
      i + 3 * tape.length ≤ image.length →
      ∃ img', writeCells palette tape image i = some img' ∧
        img'.length = image.length ∧
        (∀ k, k < i → img'.get? k = image.get? k) ∧
        (∀ j v c, tape.get? j = some v → palette.get? v = some c →
          img'.get? (i + 3 * j) = some c.2.2 ∧
          img'.get? (i + 3 * j + 1) = some c.2.1 ∧
          img'.get? (i + 3 * j + 2) = some c.1) := by
  intro tape
  induction tape with
  | nil =>
    intro image i _ _
    refine ⟨image, rfl, rfl, fun k _ => rfl, fun j v c hj _ => ?_⟩
    simp at hj
  | cons val rest ih =>
    intro image i hv hlen
    have hval : val < palette.length := hv val (List.mem_cons_self _ _)
    have hc : palette.get? val = some (palette.get ⟨val, hval⟩) :=
      List.get?_eq_get hval
    set c0 := palette.get ⟨val, hval⟩ with hc0
    have hcond : i + 2 < image.length := by
      simp only [List.length_cons] at hlen; omega
    set image2 := ((image.set (i + 2) c0.1).set (i + 1) c0.2.1).set i c0.2.2
      with himage2
    have hlen2 : image2.length = image.length := by simp [himage2]
    obtain ⟨img', heq, hlen3, hpres, hcells⟩ :=
      ih image2 (i + 3) (fun v hv' => hv v (List.mem_cons_of_mem _ hv'))
        (by rw [hlen2]; simp only [List.length_cons] at hlen; omega)
    refine ⟨img', ?_, ?_, ?_, ?_⟩
    · show writeCells palette (val :: rest) image i = some img'
      simp only [writeCells, hc]
      rw [if_pos hcond]
      exact heq
    · rw [hlen3, hlen2]
    · intro k hk
      rw [hpres k (by omega), himage2]
      rw [List.get?_set_ne _ _ (by omega : i ≠ k),
        List.get?_set_ne _ _ (by omega : i + 1 ≠ k),
        List.get?_set_ne _ _ (by omega : i + 2 ≠ k)]
    · intro j v c hj hcj
      cases j with
      | zero =>
        rw [List.get?_cons_zero] at hj
        injection hj with hv'
        subst hv'
        rw [hc] at hcj
        injection hcj with hcj'
        subst hcj'
        have e0 : img'.get? i = image2.get? i := hpres i (by omega)
        have e1 : img'.get? (i + 1) = image2.get? (i + 1) := hpres (i + 1) (by omega)
        have e2 : img'.get? (i + 2) = image2.get? (i + 2) := hpres (i + 2) (by omega)
        simp only [Nat.mul_zero, Nat.add_zero]
        refine ⟨?_, ?_, ?_⟩
        · rw [e0, himage2, List.get?_set_eq_of_lt _ (by simp; omega)]
        · rw [e1, himage2, List.get?_set_ne _ _ (by omega : i ≠ i + 1),
            List.get?_set_eq_of_lt _ (by simp; omega)]
        · rw [e2, himage2, List.get?_set_ne _ _ (by omega : i ≠ i + 2),
            List.get?_set_ne _ _ (by omega : i + 1 ≠ i + 2),
            List.get?_set_eq_of_lt _ hcond]
      | succ j' =>
        rw [List.get?_cons_succ] at hj
        obtain ⟨g0, g1, g2⟩ := hcells j' v c hj hcj
        refine ⟨?_, ?_, ?_⟩
        · rw [show i + 3 * (j' + 1) = i + 3 + 3 * j' from by ring]; exact g0
        · rw [show i + 3 * (j' + 1) + 1 = i + 3 + 3 * j' + 1 from by ring]; exact g1
        · rw [show i + 3 * (j' + 1) + 2 = i + 3 + 3 * j' + 2 from by ring]; exact g2

/-- C8: with the tape sized to the grid, the persistent buffer sized
`width*height*3` (as `new` builds it) and every tape value covered by the
palette, `write_image` succeeds, the rendered buffer has length exactly
`width*height*3`, cell `j`'s color occupies bytes `3j, 3j+1, 3j+2` in
B, G, R order (the fixed byte order is BGR), and on an all-zero tape with
`palette[0] = [10,20,30]` every pixel triple is `[30,20,10]`. -/
theorem c8_render (m : TuringMachine) (palette : List Color)
    (htape : m.tape.length = m.width * m.height)
    (himg : m.image.length = m.width * m.height * 3)
    (hpal : ∀ v ∈ m.tape, v < palette.length) :
    ∃ img', m.write_image palette = some img' ∧
      img'.length = m.width * m.height * 3 ∧
      (∀ j v c, m.tape.get? j = some v → palette.get? v = some c →
        img'.get? (3 * j) = some c.2.2 ∧
        img'.get? (3 * j + 1) = some c.2.1 ∧
        img'.get? (3 * j + 2) = some c.1) ∧
      (m.tape = List.replicate (m.width * m.height) 0 →
        palette.get? 0 = some (10, 20, 30) →
        ∀ j, j < m.width * m.height →
          img'.get? (3 * j) = some 30 ∧
          img'.get? (3 * j + 1) = some 20 ∧
          img'.get? (3 * j + 2) = some 10) := by
  obtain ⟨img', heq, hlen, -, hcells⟩ :=
    writeCells_spec palette m.tape m.image 0 hpal
      (by rw [htape, himg]; omega)
  have hcells' : ∀ j v c, m.tape.get? j = some v → palette.get? v = some c →
      img'.get? (3 * j) = some c.2.2 ∧
      img'.get? (3 * j + 1) = some c.2.1 ∧
      img'.get? (3 * j + 2) = some c.1 := by
    intro j v c hj hc
    simpa using hcells j v c hj hc
  refine ⟨img', heq, by rw [hlen, himg], hcells', ?_⟩
  intro hzero h10 j hj
  have hget : m.tape.get? j = some 0 := by
    rw [hzero, List.get?_eq_get (by simpa using hj)]
    simp [List.get_replicate]
  exact hcells' j 0 (10, 20, 30) hget h10

/-- Concrete machine for the C8 witness. -/
def c8_m : TuringMachine :=
  { width := 2, height := 2, states := 1, symbols := 1, position := 0, state := 0,
    table := [(0, 0, NORTH)],
    tape := List.replicate 4 0, image := List.replicate 12 0 }

/-- Witness for C8 at a concrete input. -/
theorem c8_render_witness :
    ∃ img', c8_m.write_image [(10, 20, 30)] = some img' ∧
      img'.length = c8_m.width * c8_m.height * 3 ∧
      (∀ j v c, c8_m.tape.get? j = some v → [(10, 20, 30)].get? v = some c →
        img'.get? (3 * j) = some c.2.2 ∧
        img'.get? (3 * j + 1) = some c.2.1 ∧
        img'.get? (3 * j + 2) = some c.1) ∧
      (c8_m.tape = List.replicate (c8_m.width * c8_m.height) 0 →
        [((10 : Nat), (20 : Nat), (30 : Nat))].get? 0 = some (10, 20, 30) →
        ∀ j, j < c8_m.width * c8_m.height →
          img'.get? (3 * j) = some 30 ∧
          img'.get? (3 * j + 1) = some 20 ∧
          img'.get? (3 * j + 2) = some 10) :=
  c8_render c8_m [(10, 20, 30)] (by decide) (by decide) (by decide)

/-! ## C1 -/

/-- C1 (amended): an iteration in which a frame is emitted (`(i+1) % stops
= 0`) and no step since the last reset changed the tape (the step returned
`false` and the accumulated flag is `false`) regenerates the transition
table, zero-fills the tape and resets the step counter to 0; the `change`
flag — already false when this reset fires — stays false, and the machine's
head position and state are NOT reset: they keep the values produced by the
last step.  The loop continues (the iteration returns a state, and with
`count ≥ 1` the budget reset does not also fire). -/
theorem c1_no_change_reset (stops count : Nat) (palette : List Color)
    (rngA rngB : Nat → Nat × Nat × Nat) (d : DriverState)
    (m1 : TuringMachine) (img : List Nat)
    (hstep : d.machine.step = some (m1, false))
    (hch : d.change = false)
    (hstops : stops ≠ 0)
    (hpic : (d.i + 1) % stops = 0)
    (himg : m1.write_image palette = some img)
    (hcount : 1 ≤ count) :
    loopIter stops count palette rngA rngB d =
      some
        { machine :=
            { m1 with
                image := img
                table := random_table m1.states m1.symbols rngA
                tape := List.replicate (m1.width * m1.height) 0 }
          i := 0
          change := false } := by
  have hnb : ¬(0 ≥ count) := by omega
  simp only [loopIter, hstep, hch, Bool.or_false, if_neg hstops, hpic, himg,
    reduceIte, if_neg hnb]

/-- Machine for the C1 counterexample and witness: a table that never
changes the tape (it always writes back symbol 0 over tape cells that are
all 0), head initially at 0. -/
def c1_m : TuringMachine :=
  { width := 4, height := 1, states := 1, symbols := 2, position := 0, state := 0,
    table := [(0, 0, EAST), (0, 1, EAST)],
    tape := [0, 0, 0, 0], image := List.replicate 12 0 }

/-- Driver state at the start of the C1 iteration. -/
def c1_d : DriverState := { machine := c1_m, i := 0, change := false }

/-- `c1_m` after one step: the head moved east to position 1, nothing else
changed. -/
def c1_m1 : TuringMachine := { c1_m with position := 1 }

/-- C1 counterexample: with `stops = 1`, the very first iteration emits a
frame, sees no change and resets — the table is regenerated, the tape
zero-filled, the counter and flag are 0/false — yet the head position is 1,
not its initial value 0: the reset does not restore position (or state). -/
theorem c1_counterexample :
    (loopIter 1 5 [(0, 0, 0)] rngZero rngZero c1_d).isSome = true ∧
    ((loopIter 1 5 [(0, 0, 0)] rngZero rngZero c1_d).getD c1_d).machine.tape =
      [0, 0, 0, 0] ∧
    ((loopIter 1 5 [(0, 0, 0)] rngZero rngZero c1_d).getD c1_d).machine.table =
      [(0, 0, NORTH), (0, 0, NORTH)] ∧
    ((loopIter 1 5 [(0, 0, 0)] rngZero rngZero c1_d).getD c1_d).i = 0 ∧
    ((loopIter 1 5 [(0, 0, 0)] rngZero rngZero c1_d).getD c1_d).change = false ∧
    ((loopIter 1 5 [(0, 0, 0)] rngZero rngZero c1_d).getD c1_d).machine.position = 1 ∧
    c1_d.machine.position = 0 := by
  decide

/-- Witness for the amended C1 at a concrete input. -/
theorem c1_no_change_reset_witness :
    loopIter 1 5 [(0, 0, 0)] rngZero rngZero c1_d =
      some
        { machine :=
            { c1_m1 with
                image := List.replicate 12 0
                table := random_table c1_m1.states c1_m1.symbols rngZero
                tape := List.replicate (c1_m1.width * c1_m1.height) 0 }
          i := 0
          change := false } :=
  c1_no_change_reset 1 5 [(0, 0, 0)] rngZero rngZero c1_d c1_m1
    (List.replicate 12 0) (by decide) rfl (by decide) (by decide) (by decide)
    (by decide)
